import Mathlib

/-!
Verification development for the PyStringManip pipeline engine, CLI driver
and operation registry.  Definitions are shallow embeddings of the Python
source files `src/api/pipeline.py`, `src/main.py`, `src/config.py` and
`src/api/operations/__init__.py` / `_core.py`.  Python strings are modelled
by `String` / `List Char`; Python exceptions by `Except` error values.
-/

namespace PSM

/-- Errors that can escape the pipeline engine at runtime.  They model the
Python exceptions that `Pipeline.execute` / `ParallelPipeline.execute` can
raise: an exception from `Operation.apply`, the `RuntimeError` for an
unmerged fork, the `ValueError` raised by `str.split('')`, and the
`TypeError` raised by `str.join` when a branch thread died and left its
result as `None`. -/
inductive PErr where
  /-- An exception raised inside `Operation.apply`, carrying `str(e)`. -/
  | opError (msg : String)
  /-- The `RuntimeError('forked pipeline has not been merged')` from
  `ParallelPipeline.execute`. -/
  | notMerged
  /-- The `ValueError('empty separator')` raised by `s.split('')`. -/
  | emptySeparator
  /-- The `TypeError('sequence item i: expected str instance, NoneType
  found')` raised by `str.join` when branch `i` is the first branch whose
  thread died with an exception (its `_result` stayed `None`). -/
  | joinNone (i : Nat)
  deriving Repr, DecidableEq

/-- An operation in the sense of `src/api/operations/_core.py`: a named,
pure string-to-string transform whose `apply` may raise (modelled by
`Except String`, the error being the exception message). -/
structure Operation where
  name : String
  apply : String → Except String String

/-- A pipeline node (`Pipeline._operations` elements in
`src/api/pipeline.py`): either a concrete `Operation` or a nested
`ParallelPipeline` with its split delimiter, its optional `_joiner`
(set once by `merge`) and its own node list. -/
inductive Node where
  | op (o : Operation)
  | par (delimiter : String) (joiner : Option String) (children : List Node)

/-- Containment scan for `pyIn`: `d` occurs in `l` iff it is a prefix of
some suffix of `l`. -/
def pyInAux (d : List Char) : List Char → Bool
  | [] => d.isEmpty
  | c :: rest => d.isPrefixOf (c :: rest) || pyInAux d rest

/-- Python's `sub in s` substring test (`self._delimiter in s` at
`pipeline.py:144`), realised on character lists.  Note the empty string is
contained in every string, as in Python. -/
def pyIn (d s : String) : Bool :=
  pyInAux d.data s.data

/-- Python's `str.split(sep)` for a nonempty separator `s0 :: stl`:
scan left to right, cutting at each leftmost, non-overlapping occurrence
of the separator. -/
def pySplitNE (s0 : Char) (stl : List Char) : List Char → List (List Char)
  | [] => [[]]
  | c :: rest =>
    if (s0 :: stl).isPrefixOf (c :: rest) then
      [] :: pySplitNE s0 stl (rest.drop stl.length)
    else
      match pySplitNE s0 stl rest with
      | [] => [[c]]
      | p :: ps => (c :: p) :: ps
termination_by l => l.length
decreasing_by
  all_goals simp_wf
  all_goals omega

/-- Python's `str.split(sep)`.  The `[]` separator case is unreachable in
the engine (it raises `ValueError('empty separator')` first, see
`execNode`); it is given an arbitrary total value here. -/
def pySplit (sep l : List Char) : List (List Char) :=
  match sep with
  | [] => [l]
  | s0 :: stl => pySplitNE s0 stl l

/-- The surviving substrings of a split: `filter(None, s.split(delimiter))`
at `pipeline.py:145` — empty substrings are dropped. -/
def pySurviving (d s : String) : List String :=
  ((pySplit d.data s.data).map (fun l => String.mk l)).filter (fun x => !x.isEmpty)

/-- Python's `str.join` over the thread results (`pipeline.py:156`), which
are `Option String` because a thread whose target raised leaves `_result`
as `None`.  `join` consumes items left to right and raises a `TypeError`
naming the position of the first `None` item. -/
def pyJoinItems (i : Nat) : List (Option String) → Except PErr (List String)
  | [] => .ok []
  | none :: _ => .error (.joinNone i)
  | some r :: rest => (pyJoinItems (i + 1) rest).map (fun l => r :: l)

/-- Python's `joiner.join(thread.result for thread in threads)`. -/
def pyJoin (j : String) (items : List (Option String)) : Except PErr String :=
  (pyJoinItems 0 items).map (fun l => String.intercalate j l)

mutual

/-- Return value of `Pipeline.execute` (`pipeline.py:78-98`): an empty node
list returns the input unchanged (after a warning, tracked separately by
`executeTop`); otherwise the nodes are folded over the buffer in order. -/
def pipeExec (nodes : List Node) (s : String) : Except PErr String :=
  if nodes.isEmpty then .ok s else execNodes nodes s
termination_by (sizeOf nodes, 0, 1)

/-- The fold of `Pipeline.execute` over its node list: each node transforms
the buffer; the first error aborts the fold (nothing is retried). -/
def execNodes (nodes : List Node) (s : String) : Except PErr String :=
  match nodes with
  | [] => .ok s
  | n :: rest =>
    match execNode n s with
    | .error e => .error e
    | .ok s2 => execNodes rest s2
termination_by (sizeOf nodes, 0, 0)

/-- One step of the fold: a concrete operation is applied
(`buffer = op.apply(buffer)`, `pipeline.py:97`); a `ParallelPipeline` runs
`ParallelPipeline.execute` (`pipeline.py:140-158`): raise if not merged;
if the delimiter occurs in the buffer, split (raising on the empty
separator as `str.split('')` does), run every surviving substring through
an independent branch and join the thread results; otherwise run the
group's own node list sequentially on the whole buffer
(`super().execute(s)`). -/
def execNode (n : Node) (s : String) : Except PErr String :=
  match n with
  | .op o =>
    match o.apply s with
    | .ok r => .ok r
    | .error m => .error (.opError m)
  | .par d j cs =>
    match j with
    | none => .error .notMerged
    | some joiner =>
      if pyIn d s then
        match d.data with
        | [] => .error .emptySeparator
        | _ :: _ => pyJoin joiner (runBranches cs (pySurviving d s))
      else pipeExec cs s
termination_by (sizeOf n, 0, 0)

/-- The branch threads (`pipeline.py:147-154`): each surviving substring is
processed by a fresh `Pipeline` sharing the group's node list.  A branch
whose execution raises leaves its thread's `_result` as `None`
(`_ThreadWithReturnValue.run` does not propagate the exception to the
joining thread); results are collected in branch-index order, which is the
original substring order. -/
def runBranches (cs : List Node) (subs : List String) : List (Option String) :=
  match subs with
  | [] => []
  | sub :: rest =>
    (match pipeExec cs sub with
     | .ok r => some r
     | .error _ => none) :: runBranches cs rest
termination_by (sizeOf cs, subs.length, 2)

end

/-- Observable behaviour of a top-level `Pipeline.execute` call: the return
value together with the warnings printed by this pipeline object's own
logger — exactly `['pipeline is empty']` when the node list is empty
(`pipeline.py:85-87`), nothing otherwise. -/
def executeTop (nodes : List Node) (s : String) : Except PErr String × List String :=
  (pipeExec nodes s, if nodes.isEmpty then ["pipeline is empty"] else [])

/-- Python `repr` of a simple string (no embedded quotes), as produced by
the `!r` format specifier in the driver's error messages. -/
def pyRepr (s : String) : String := "'" ++ s ++ "'"

/-- Message of the Python exception behind a `PErr`, i.e. `str(e)`. -/
def errMsg : PErr → String
  | .opError m => m
  | .notMerged => "forked pipeline has not been merged"
  | .emptySeparator => "empty separator"
  | .joinNone i => "sequence item " ++ toString i ++ ": expected str instance, NoneType found"

/-- The execute stage of `main` (`main.py:126-131`): print the pipeline
result on stdout (`Sum.inl`), or catch any exception and print
`Error: <msg>` on stderr (`Sum.inr`). -/
def execStage (nodes : List Node) (data : String) : String ⊕ String :=
  match pipeExec nodes data with
  | .ok r => Sum.inl r
  | .error e => Sum.inr ("Error: " ++ errMsg e)

/-- The per-step error message of the driver's construction loop
(`main.py:124`): `Error at operation '<name>' (#<index>): <msg>` with the
1-based index. -/
def assemblyErrMsg (name : String) (index : Nat) (msg : String) : String :=
  "Error at operation " ++ pyRepr name ++ " (#" ++ toString index ++ "): " ++ msg

/-- The `merge` method of `ParallelPipeline` (`pipeline.py:126-138`),
acting on the `_joiner` field: raise `RuntimeError` if already merged,
otherwise set the joiner. -/
def mergeJoiner (joiner0 : Option String) (j : String) : Except String (Option String) :=
  match joiner0 with
  | some _ => .error "pipeline has already been merged"
  | none => .ok (some j)

/-- A configuration entry as seen by the driver loop of `main`
(`main.py:101-125`): a `skip` control marker carrying its already-cast
argument `n` (a Python `int`, possibly negative), or any other entry
(concrete operation, `fork` or `merge`), identified by name. -/
inductive CfgEntry where
  | skip (n : Int)
  | op (name : String)
  deriving Repr, DecidableEq

/-- Whether an entry is the `skip` control marker. -/
def CfgEntry.isSkip : CfgEntry → Bool
  | .skip _ => true
  | .op _ => false

/-- The driver loop's skip pre-pass (`main.py:100-120`): `k` is the current
value of the `skip` counter, `i` the 0-based `enumerate` index.  A positive
counter consumes the entry (nothing is instantiated or appended) and is
decremented; a `skip n` entry reaching the body sets the counter to `n`;
any other entry reaching the body is processed, and the message of an
error it raises uses the 1-based index `i + 1` (`main.py:124`).  The
result is the list of processed entries with their original 0-based
positions. -/
def prePass (k : Int) (i : Nat) : List CfgEntry → List (Nat × CfgEntry)
  | [] => []
  | c :: rest =>
    if 0 < k then prePass (k - 1) (i + 1) rest
    else
      match c with
      | .skip n => prePass n (i + 1) rest
      | .op nm => (i, .op nm) :: prePass k (i + 1) rest

/-- Python's `raw_param.replace('\\,', ',')` (`config.py:44`): remove each
`\,` escape, left to right, non-overlapping. -/
def replEsc : List Char → List Char
  | '\\' :: ',' :: rest => ',' :: replEsc rest
  | c :: rest => c :: replEsc rest
  | [] => []

/-- Python's `re.split(r'(?<!\\),', p)` (`config.py:32`): split at every
comma whose immediately preceding character is not a backslash.  `prev` is
the character just before the current position in the original string
(`none` at the start). -/
def splitEsc (prev : Option Char) : List Char → List (List Char)
  | [] => [[]]
  | c :: rest =>
    if c = ',' ∧ prev ≠ some '\\' then
      [] :: splitEsc (some c) rest
    else
      match splitEsc (some c) rest with
      | [] => [[c]]
      | p :: ps => (c :: p) :: ps

/-- Python's `raw_param.split('=', 1)` combined with the preceding
`'=' not in raw_param` test: `none` when the string has no `'='`,
otherwise the parts before and after the first `'='`. -/
def splitOnceEq : List Char → Option (List Char × List Char)
  | [] => none
  | c :: rest =>
    if c = '=' then some ([], rest)
    else (splitOnceEq rest).map (fun pr => (c :: pr.1, pr.2))

/-- The `split_param` helper of `_parse_cli_operation` (`config.py:43-47`):
unescape the piece, raise a `ValueError` naming the operation and the
token's 1-based index when it contains no `'='`, otherwise split on the
first `'='` only. -/
def split_param (opName : String) (index : Nat) (raw : List Char) :
    Except String (List Char × List Char) :=
  let u := replEsc raw
  match splitOnceEq u with
  | none =>
    .error ("malformed parameter " ++ pyRepr (String.mk u) ++ " for operation "
      ++ pyRepr opName ++ " (#" ++ toString index ++ ")")
  | some kv => .ok kv

/-- The parameter-list stage of `_parse_cli_operation` (`config.py:32` and
`config.py:49-51`, without the per-schema value casting): split the
bracketed list on unescaped commas, then run `split_param` on each piece,
failing on the first malformed piece. -/
def parseParamPairs (opName : String) (index : Nat) (p : String) :
    Except String (List (List Char × List Char)) :=
  (splitEsc none p.data).mapM (split_param opName index)

/-- The name normalization `Operation.format_operation_name`
(`_core.py:30-37`): `re.sub(r'([A-Z])', r'_\1', s)[1:].lower()` — insert
an underscore before every ASCII uppercase letter, drop the first
character of the result, lowercase the rest. -/
def fmtOperationName (s : String) : String :=
  String.mk ((((s.data.map (fun c => if c.isUpper then ['_', c] else [c])).flatten).drop 1).map
    Char.toLower)

/-- Python dict assignment `m[k] = v` on an insertion-ordered dict
modelled as an association list: replace in place when the key exists,
append otherwise.  This is what `_OPERATIONS[op_name] = v` at
`operations/__init__.py:71` does — a colliding key silently overwrites,
nothing fails. -/
def dictInsert (m : List (String × String)) (k v : String) : List (String × String) :=
  if m.any (fun pr => pr.1 == k) then
    m.map (fun pr => if pr.1 == k then (k, v) else pr)
  else m ++ [(k, v)]

/-- The registration loop of `_init` (`operations/__init__.py:63-85`)
restricted to the key/class-identifier bookkeeping: every registered class
identifier is normalized with `fmtOperationName` and assigned into the
registry dict.  The loop is total: it has no collision check and never
fails. -/
def registerAll (classIds : List String) : List (String × String) :=
  classIds.foldl (fun m cls => dictInsert m (fmtOperationName cls) cls) []

/-- Modelled from the spec: the identifiers of the operation classes
registered by `_init`.  The subpackage re-export files
(`data_formats/__init__.py` etc.) are not part of the sources at hand, so,
following the spec's statement that the whole catalog of concrete
operations is registered, the list holds every public (no leading
underscore), concrete (non-abstract) `Operation` subclass defined in the
operation modules, in module order. -/
def operationClassNames : List String :=
  ["GetTime", "FromUnixTs", "ToUnixTs", "ParseDatetime", "ConvertDatetime",
   "ExtractIps", "ExtractMacAddresses", "ExtractUrls", "ExtractDomains",
   "ExtractEmails", "ExtractFilePaths", "ExtractDates", "Regex",
   "Entropy", "FrequencyDist", "CoincidenceIndex",
   "Rng", "XkcdRng", "RandomUuid", "Lipsum",
   "ToBase32", "FromBase32", "ToBase64", "FromBase64", "ToBase85", "FromBase85",
   "BytesToBaseN", "BytesToHex", "BytesToOctal", "BytesToBinary",
   "FromBaseNBytes", "FromHexBytes", "FromOctalBytes", "FromBinaryBytes",
   "CsvToJson", "JsonToCsv",
   "ToQuotedPrintable", "FromQuotedPrintable", "ToHexDump", "FromHexDump", "ToTable",
   "Vigenere",
   "DefangIpAddresses", "GroupIpAddresses",
   "ParseUnixFilePerms",
   "EncodeUrl", "EncodeUrlComponent", "DecodeUrl", "DecodeUrlComponent",
   "ParseUrl", "DefangUrls", "RemoveHtml", "Xpath", "Jpath",
   "ToNato", "ToMorseCode", "FromMorseCode",
   "ToCharcode", "FromCharcode", "UnicodeFormat", "RemoveDiacritics",
   "EscapeUnicodeChars", "UnescapeUnicodeChars", "NormalizeUnicode",
   "Xor", "Or", "And", "Not", "LeftBitShift", "RightBitShift",
   "HaversineDist",
   "ToBase", "FromBase",
   "Sum", "Subtract", "Multiply", "Divide", "Mean", "Median", "Stdev",
   "SetUnion", "SetIntersection", "SetDifference", "SetSymmetricDifference",
   "CartesianProduct",
   "ConvertDistance", "ConvertArea", "ConvertMass", "ConvertSpeed", "ConvertDataUnit",
   "RemoveWhitespace", "RemoveNullBytes", "Replace", "Occurrences", "CheckSimilarities",
   "Uppercase", "Lowercase", "AddLineNumbers", "RemoveLineNumbers", "Reverse",
   "Sort", "Unique", "Filter", "RemoveBom", "Head", "Tail", "Slice",
   "TakeBytes", "DropBytes", "Escape", "Unescape", "ExpandCharsRange",
   "PadLeft", "PadRight"]

/-- Rejoin pieces with the comma separator; used to state that the
escaped-comma split is a partition of the original parameter list. -/
def joinComma : List (List Char) → List Char
  | [] => []
  | [p] => p
  | p :: ps => p ++ ',' :: joinComma ps

/-- Every comma occurring in the scanned characters is immediately
preceded by a backslash (`prev` being the character before the first
one).  Pieces produced by `splitEsc` satisfy this: `\,` is not treated
as a separator, unescaped commas are. -/
def escOnly : Option Char → List Char → Bool
  | _, [] => true
  | prev, c :: rest => (c != ',' || prev == some '\\') && escOnly (some c) rest

/-- An operation whose `apply` always raises an exception with message
`boom`. -/
def opBoom : Operation :=
  { name := "boom_op", apply := fun _ => .error "boom" }

/-- An operation whose `apply` raises exactly on the input `a`. -/
def opFailA : Operation :=
  { name := "fail_on_a", apply := fun s => if s = "a" then .error "boom" else .ok s }

end PSM

namespace PSM

/-! Helper lemmas about the embedded functions. -/

theorem execNodes_append (l1 l2 : List Node) (s : String) :
    execNodes (l1 ++ l2) s
      = match execNodes l1 s with
        | .ok s2 => execNodes l2 s2
        | .error e => .error e := by
  induction l1 generalizing s with
  | nil => simp [execNodes]
  | cons n rest ih =>
    simp only [List.cons_append, execNodes]
    cases execNode n s with
    | error e => simp
    | ok s2 => simpa using ih s2

theorem runBranches_eq_map (cs : List Node) (subs : List String) :
    runBranches cs subs = subs.map (fun sub => (pipeExec cs sub).toOption) := by
  induction subs with
  | nil => simp [runBranches]
  | cons a l ih =>
    simp only [runBranches, List.map_cons, ih]
    cases pipeExec cs a <;> simp [Except.toOption]

theorem pyJoinItems_all_some (items : List (Option String)) (i : Nat)
    (h : ∀ r ∈ items, r.isSome) :
    pyJoinItems i items = .ok (items.map (fun r => r.getD "")) := by
  induction items generalizing i with
  | nil => simp [pyJoinItems]
  | cons a l ih =>
    cases a with
    | none => exact absurd (h none (by simp)) (by simp)
    | some r =>
      simp [pyJoinItems, ih (i + 1) (fun x hx => h x (by simp [hx])), Except.map]

theorem pyJoinItems_first_none (items : List (Option String)) (i i0 : Nat)
    (hfail : items.get? i = some none)
    (hbefore : ∀ k, k < i → ∃ r, items.get? k = some (some r)) :
    pyJoinItems i0 items = .error (.joinNone (i0 + i)) := by
  induction items generalizing i i0 with
  | nil => simp at hfail
  | cons a l ih =>
    cases i with
    | zero =>
      simp only [List.get?] at hfail
      injection hfail with hfail
      subst hfail
      simp [pyJoinItems]
    | succ m =>
      obtain ⟨r, hr⟩ := hbefore 0 (Nat.succ_pos m)
      simp only [List.get?] at hr
      injection hr with hr
      subst hr
      have := ih m (i0 + 1) hfail (fun k hk => hbefore (k + 1) (by omega))
      simp only [pyJoinItems, this, Except.map]
      have harith : i0 + 1 + m = i0 + (m + 1) := by omega
      rw [harith]

theorem prePass_append_no_skip (pre rest : List CfgEntry) (i : Nat)
    (h : ∀ c ∈ pre, c.isSkip = false) :
    prePass 0 i (pre ++ rest)
      = List.enumFrom i pre ++ prePass 0 (i + pre.length) rest := by
  induction pre generalizing i with
  | nil => simp [List.enumFrom]
  | cons c l ih =>
    cases c with
    | skip n =>
      exact absurd (h (CfgEntry.skip n) (List.mem_cons_self _ _))
        (by simp [CfgEntry.isSkip])
    | op nm =>
      have hh : ∀ x ∈ l, x.isSkip = false :=
        fun x hx => h x (List.mem_cons_of_mem _ hx)
      have hlen : i + (CfgEntry.op nm :: l).length = i + 1 + l.length := by
        simp only [List.length_cons]
        omega
      rw [hlen, List.cons_append,
        show prePass 0 i (CfgEntry.op nm :: (l ++ rest))
            = (i, CfgEntry.op nm) :: prePass 0 (i + 1) (l ++ rest) from by
          simp [prePass],
        ih (i + 1) hh,
        show List.enumFrom i (CfgEntry.op nm :: l)
            = (i, CfgEntry.op nm) :: List.enumFrom (i + 1) l from rfl,
        List.cons_append]

theorem prePass_consume (mid rest : List CfgEntry) (i : Nat) :
    prePass (mid.length : Int) i (mid ++ rest) = prePass 0 (i + mid.length) rest := by
  induction mid generalizing i with
  | nil => simp [prePass]
  | cons c l ih =>
    have hpos : (0 : Int) < ((l.length + 1 : Nat) : Int) := by
      push_cast
      omega
    have hsub : (((l.length + 1 : Nat)) : Int) - 1 = (l.length : Int) := by
      push_cast
      omega
    have harith : i + 1 + l.length = i + (l.length + 1) := by omega
    rw [List.length_cons, List.cons_append,
      show prePass ((l.length + 1 : Nat) : Int) i (c :: (l ++ rest))
          = prePass (((l.length + 1 : Nat) : Int) - 1) (i + 1) (l ++ rest) from by
        simp only [prePass, if_pos hpos],
      hsub, ih (i + 1), harith]

theorem splitEsc_ne_nil (prev : Option Char) (l : List Char) :
    splitEsc prev l ≠ [] := by
  induction l generalizing prev with
  | nil => simp [splitEsc]
  | cons c rest ih =>
    by_cases hc : c = ',' ∧ prev ≠ some '\\'
    · simp [splitEsc, hc]
    · simp only [splitEsc, if_neg hc]
      cases hS : splitEsc (some c) rest with
      | nil => simp
      | cons p ps => simp

theorem joinComma_splitEsc (prev : Option Char) (l : List Char) :
    joinComma (splitEsc prev l) = l := by
  induction l generalizing prev with
  | nil => rfl
  | cons c rest ih =>
    rcases hS : splitEsc (some c) rest with _ | ⟨p, ps⟩
    · exact absurd hS (splitEsc_ne_nil _ _)
    · have ih' : joinComma (p :: ps) = rest := by
        rw [← hS]
        exact ih (some c)
      by_cases hc : c = ',' ∧ prev ≠ some '\\'
      · simp only [splitEsc, if_pos hc, hS]
        rw [show joinComma ([] :: p :: ps) = ',' :: joinComma (p :: ps) from rfl,
          ih', hc.1]
      · simp only [splitEsc, if_neg hc, hS]
        cases ps with
        | nil =>
          have hp : p = rest := ih'
          simp [joinComma, hp]
        | cons q qs =>
          rw [show joinComma ((c :: p) :: q :: qs)
              = (c :: p) ++ ',' :: joinComma (q :: qs) from rfl]
          rw [show joinComma (p :: q :: qs) = p ++ ',' :: joinComma (q :: qs) from rfl]
            at ih'
          simp [← ih']

theorem escOnly_congr_prev (p : List Char) (prev1 prev2 : Option Char)
    (h1 : prev1 ≠ some '\\') (h2 : prev2 ≠ some '\\') :
    escOnly prev1 p = escOnly prev2 p := by
  cases p with
  | nil => rfl
  | cons c rest =>
    have e1 : (prev1 == some '\\') = false := by
      simpa using h1
    have e2 : (prev2 == some '\\') = false := by
      simpa using h2
    simp [escOnly, e1, e2]

theorem splitEsc_pieces (prev : Option Char) (l : List Char) :
    escOnly prev ((splitEsc prev l).headD []) = true
      ∧ ∀ p ∈ (splitEsc prev l).tail, escOnly (some ',') p = true := by
  induction l generalizing prev with
  | nil => simp [splitEsc, escOnly]
  | cons c rest ih =>
    rcases hS : splitEsc (some c) rest with _ | ⟨q, qs⟩
    · exact absurd hS (splitEsc_ne_nil _ _)
    · have ihc := ih (some c)
      rw [hS] at ihc
      simp only [List.headD_cons, List.tail_cons] at ihc
      by_cases hc : c = ',' ∧ prev ≠ some '\\'
      · simp only [splitEsc, if_pos hc, List.headD_cons, List.tail_cons]
        refine ⟨rfl, ?_⟩
        intro p hp
        rw [hS] at hp
        rcases List.mem_cons.mp hp with h | h
        · subst h
          have h1 := ihc.1
          rwa [hc.1] at h1
        · exact ihc.2 p h
      · simp only [splitEsc, if_neg hc, hS, List.headD_cons, List.tail_cons]
        refine ⟨?_, ihc.2⟩
        simp only [escOnly, Bool.and_eq_true]
        refine ⟨?_, ihc.1⟩
        rcases not_and_or.mp hc with h | h
        · simp [bne_iff_ne, h]
        · have hp : prev = some '\\' := not_not.mp h
          simp [hp]

theorem splitEsc_escOnly (l : List Char) :
    ∀ p ∈ splitEsc none l, escOnly none p = true := by
  intro p hp
  rcases hS : splitEsc none l with _ | ⟨q, qs⟩
  · exact absurd hS (splitEsc_ne_nil _ _)
  · have h := splitEsc_pieces none l
    rw [hS] at h
    simp only [List.headD_cons, List.tail_cons] at h
    rw [hS] at hp
    rcases List.mem_cons.mp hp with he | he
    · subst he
      exact h.1
    · have := h.2 p he
      rwa [escOnly_congr_prev p (some ',') none (by simp) (by simp)] at this

theorem splitOnceEq_eq_none (l : List Char) (h : '=' ∉ l) :
    splitOnceEq l = none := by
  induction l with
  | nil => rfl
  | cons c rest ih =>
    have hc : c ≠ '=' := fun he => h (he ▸ List.mem_cons_self c rest)
    simp only [splitOnceEq, if_neg hc, ih (fun hm => h (List.mem_cons_of_mem c hm))]
    rfl

theorem splitOnceEq_append (k v : List Char) (h : '=' ∉ k) :
    splitOnceEq (k ++ '=' :: v) = some (k, v) := by
  induction k with
  | nil => simp [splitOnceEq]
  | cons c rest ih =>
    have hc : c ≠ '=' := fun he => h (he ▸ List.mem_cons_self c rest)
    simp only [List.cons_append, splitOnceEq, if_neg hc, List.append_eq,
      ih (fun hm => h (List.mem_cons_of_mem c hm)), Option.map]

/-! Claim theorems. -/

/-- Claim C1: for a merged fork whose (nonempty) delimiter occurs in the
input, `execute` splits the input on the delimiter, drops the empty
substrings, runs the group's node list on each surviving substring, and
joins the branch outputs with the joiner in original left-to-right
substring order (the merge is by branch index, hence independent of
completion order); in particular the split of `a,,b` on `,` yields
exactly the two branches `a` and `b`. -/
theorem fork_split_filter_run_join (cs : List Node) (d j s : String)
    (hd : d.data ≠ []) (hin : pyIn d s = true)
    (hok : ∀ r ∈ runBranches cs (pySurviving d s), r.isSome) :
    execNode (.par d (some j) cs) s
      = .ok (String.intercalate j ((pySurviving d s).map
          (fun sub => ((pipeExec cs sub).toOption).getD "")))
    ∧ pySurviving "," "a,,b" = ["a", "b"] := by
  refine ⟨?_, ?_⟩
  · simp only [execNode, hin, if_true]
    rcases hdd : d.data with _ | ⟨c, tl⟩
    · exact absurd hdd hd
    · show pyJoin j (runBranches cs (pySurviving d s)) = _
      rw [pyJoin, pyJoinItems_all_some _ 0 hok, runBranches_eq_map]
      simp only [Except.map, List.map_map]
      rfl
  · simp +decide [pySurviving, pySplit, pySplitNE]

/-- Witness for C1 at a concrete fork: delimiter `,`, joiner `|`, empty
branch node list, input `a,b`. -/
theorem fork_split_filter_run_join_witness :
    pyIn "," "a,b" = true
    ∧ (∀ r ∈ runBranches [] (pySurviving "," "a,b"), r.isSome)
    ∧ execNode (.par "," (some "|") []) "a,b"
        = .ok (String.intercalate "|" ((pySurviving "," "a,b").map
            (fun sub => ((pipeExec [] sub).toOption).getD ""))) :=
  ⟨by decide,
   by simp +decide [pySurviving, pySplit, pySplitNE, runBranches, pipeExec],
   (fork_split_filter_run_join [] "," "|" "a,b" (by decide) (by decide)
      (by simp +decide [pySurviving, pySplit, pySplitNE, runBranches, pipeExec])).1⟩

/-- Claim C2, counterexample to the claim as stated: with one branch
operation that raises `boom` on the substring `a`, the enclosing
`execute` of the fork on `a,b` does not surface the branch's own error —
the thread swallows it and `execute` fails with the `str.join`
`TypeError` at branch position 0 instead. -/
theorem branch_error_not_surfaced :
    execNode (.par "," (some "|") [.op opFailA]) "a,b" = .error (.joinNone 0)
    ∧ execNode (.par "," (some "|") [.op opFailA]) "a,b" ≠ .error (.opError "boom")
    ∧ opFailA.apply "a" = .error "boom" := by
  have h : execNode (.par "," (some "|") [.op opFailA]) "a,b" = .error (.joinNone 0) := by
    simp +decide [execNode, pyIn, pyInAux, pySurviving, pySplit, pySplitNE, pipeExec,
      execNodes, runBranches, opFailA, pyJoin, pyJoinItems, Except.map]
  refine ⟨h, ?_, by simp [opFailA]⟩
  rw [h]
  simp

/-- Claim C2 as amended: a branch's runtime error aborts only that branch
(every branch result is the independent run of the group's node list on
its own substring), the branch's own error is swallowed by its thread,
and the enclosing `execute` fails — producing no merged output — with the
`str.join` `TypeError` whose item position is the index of the first
failed branch in original substring order, not completion order. -/
theorem branch_error_join_failure (cs : List Node) (d j s : String) (i : Nat)
    (hd : d.data ≠ []) (hin : pyIn d s = true)
    (hfail : (runBranches cs (pySurviving d s)).get? i = some none)
    (hbefore : ∀ k, k < i →
      ∃ r, (runBranches cs (pySurviving d s)).get? k = some (some r)) :
    execNode (.par d (some j) cs) s = .error (.joinNone i)
    ∧ runBranches cs (pySurviving d s)
        = (pySurviving d s).map (fun sub => (pipeExec cs sub).toOption) := by
  refine ⟨?_, runBranches_eq_map cs _⟩
  simp only [execNode, hin, if_true]
  rcases hdd : d.data with _ | ⟨c, tl⟩
  · exact absurd hdd hd
  · show pyJoin j (runBranches cs (pySurviving d s)) = _
    rw [pyJoin, pyJoinItems_first_none _ i 0 hfail hbefore]
    simp [Except.map]

/-- Witness for the amended C2 at the concrete fork of
`branch_error_not_surfaced`, failing branch index 0. -/
theorem branch_error_join_failure_witness :
    (runBranches [Node.op opFailA] (pySurviving "," "a,b")).get? 0 = some none
    ∧ execNode (.par "," (some "|") [.op opFailA]) "a,b" = .error (.joinNone 0) :=
  ⟨by simp +decide [pySurviving, pySplit, pySplitNE, runBranches, pipeExec,
      execNodes, execNode, opFailA],
   (branch_error_join_failure [Node.op opFailA] "," "|" "a,b" 0 (by decide) (by decide)
      (by simp +decide [pySurviving, pySplit, pySplitNE, runBranches, pipeExec,
        execNodes, execNode, opFailA])
      (fun k hk => absurd hk (Nat.not_lt_zero k))).1⟩

/-- Claim C3, counterexample to the claim as stated: a runtime failure of
`apply()` during `execute` is reported by the driver as `Error: <msg>`
(`main.py:126-131`), not in the
`Error at operation '<name>' (#<index>): <msg>` form, which `main.py:124`
uses only for errors raised while building the pipeline. -/
theorem runtime_error_message_format :
    execStage [Node.op opBoom] "x" = Sum.inr "Error: boom"
    ∧ assemblyErrMsg "boom_op" 1 "boom" = "Error at operation 'boom_op' (#1): boom"
    ∧ ("Error: boom" : String) ≠ assemblyErrMsg "boom_op" 1 "boom" := by
  refine ⟨?_, by decide, by decide⟩
  simp +decide [execStage, pipeExec, execNodes, execNode, opBoom, errMsg]

/-- Claim C3 as amended: an exception from `apply()` is never retried — it
makes the fold return that operation's error no matter what later nodes
follow, aborting the enclosing `execute` call — and the driver reports the
failure on stderr as `Error: <msg>` (without the failing step's name or
1-based index; the `Error at operation '<name>' (#<index>): <msg>` form is
used for pipeline-construction errors instead). -/
theorem apply_error_aborts_reported (pre post : List Node) (o : Operation)
    (s s1 m : String)
    (hpre : execNodes pre s = .ok s1) (hf : o.apply s1 = .error m) :
    pipeExec (pre ++ Node.op o :: post) s = .error (.opError m)
    ∧ execStage (pre ++ Node.op o :: post) s = Sum.inr ("Error: " ++ m) := by
  have hmain : execNodes (pre ++ Node.op o :: post) s = .error (.opError m) := by
    rw [execNodes_append, hpre]
    simp only [execNodes, execNode, hf]
  have hne : (pre ++ Node.op o :: post).isEmpty = false := by
    cases pre <;> simp [List.isEmpty]
  refine ⟨?_, ?_⟩
  · simp [pipeExec, hne, hmain]
  · simp [execStage, pipeExec, hne, hmain, errMsg]

/-- Witness for the amended C3: the always-failing operation alone in the
pipeline, input `x`. -/
theorem apply_error_aborts_reported_witness :
    execNodes [] "x" = .ok "x"
    ∧ opBoom.apply "x" = .error "boom"
    ∧ execStage ([] ++ Node.op opBoom :: []) "x" = Sum.inr ("Error: " ++ "boom") :=
  ⟨by simp [execNodes], by simp [opBoom],
   (apply_error_aborts_reported [] [] opBoom "x" "x" "boom"
      (by simp [execNodes]) (by simp [opBoom])).2⟩

/-- Claim C4: when the driver's pre-pass reaches a `skip` entry of count
`n` with its counter at zero (no preceding skip), exactly the next `n`
configuration entries are omitted — whatever they are, control markers
included — and the processed entries keep their original enumerate
positions (whose successors are the 1-based indices used in error
messages), both before the skip and after the omitted block. -/
theorem skip_pre_pass_omits_exactly (pre mid post : List CfgEntry) (n : Nat)
    (hpre : ∀ c ∈ pre, c.isSkip = false) (hmid : mid.length = n) :
    prePass 0 0 (pre ++ CfgEntry.skip (n : Int) :: (mid ++ post))
      = List.enumFrom 0 pre ++ prePass 0 (pre.length + 1 + n) post := by
  subst hmid
  rw [prePass_append_no_skip pre _ 0 hpre]
  rw [show (0 + pre.length) = pre.length from by omega]
  rw [show prePass 0 pre.length
        (CfgEntry.skip (mid.length : Int) :: (mid ++ post))
      = prePass (mid.length : Int) (pre.length + 1) (mid ++ post) from by
    simp [prePass]]
  rw [prePass_consume]

/-- Witness for C4: `[op a, skip 2, op b, skip 5, op c]` processes `op a`
at position 0 and `op c` at position 4; the `op b` and `skip 5` entries
are omitted and the inner `skip 5` does not fire. -/
theorem skip_pre_pass_omits_exactly_witness :
    (∀ c ∈ [CfgEntry.op "a"], c.isSkip = false)
    ∧ prePass 0 0 ([CfgEntry.op "a"]
        ++ CfgEntry.skip ((2 : Nat) : Int) :: ([CfgEntry.op "b", CfgEntry.skip 5]
        ++ [CfgEntry.op "c"]))
      = List.enumFrom 0 [CfgEntry.op "a"]
        ++ prePass 0 ([CfgEntry.op "a"].length + 1 + 2) [CfgEntry.op "c"] :=
  ⟨by decide,
   skip_pre_pass_omits_exactly [CfgEntry.op "a"] [CfgEntry.op "b", CfgEntry.skip 5]
     [CfgEntry.op "c"] 2 (by decide) (by decide)⟩

/-- Claim C5: the bracketed parameter list is split exactly at commas not
preceded by a backslash (the split is a partition of the original list in
which every remaining comma is escaped, so `\,` is never a separator);
each piece is unescaped and split on its first `=` only, so values may
contain further `=`; and a piece containing no `=` is a configuration
error naming the operation and the token's 1-based index.  The final
conjunct runs the whole parameter-list stage on
`a=1\,2,b=x=y`. -/
theorem param_list_parsing (l raw k v : List Char) (op : String) (idx : Nat)
    (hkv : replEsc raw = k ++ '=' :: v) (hk : '=' ∉ k) :
    joinComma (splitEsc none l) = l
    ∧ (∀ p ∈ splitEsc none l, escOnly none p = true)
    ∧ split_param op idx raw = .ok (k, v)
    ∧ (∀ raw2, '=' ∉ replEsc raw2 →
        split_param op idx raw2 = .error ("malformed parameter "
          ++ pyRepr (String.mk (replEsc raw2)) ++ " for operation "
          ++ pyRepr op ++ " (#" ++ toString idx ++ ")"))
    ∧ parseParamPairs "f" 1 "a=1\\,2,b=x=y"
        = .ok [("a".data, "1,2".data), ("b".data, "x=y".data)] := by
  refine ⟨joinComma_splitEsc none l, splitEsc_escOnly l, ?_, ?_, rfl⟩
  · rw [split_param]
    simp only [hkv, splitOnceEq_append k v hk]
  · intro raw2 h2
    rw [split_param]
    simp only [splitOnceEq_eq_none _ h2]

/-- Witness for C5: the piece `a=1\,2` parses to parameter `a` with value
`1,2`. -/
theorem param_list_parsing_witness :
    replEsc "a=1\\,2".data = "a".data ++ '=' :: "1,2".data
    ∧ ('=' ∉ "a".data)
    ∧ split_param "f" 2 "a=1\\,2".data = .ok ("a".data, "1,2".data) :=
  ⟨by decide, by decide,
   (param_list_parsing [] "a=1\\,2".data "a".data "1,2".data "f" 2
      (by decide) (by decide)).2.2.1⟩

/-- Claim C6, counterexample to the claim as stated: the registration loop
has no collision check — registering the two distinct identifiers `AbC`
and `Ab_c`, which normalize to the same key `ab_c`, succeeds (the loop is
a total function) and the later registration silently overwrites the
earlier one instead of failing. -/
theorem registry_collision_silent_overwrite :
    registerAll ["AbC", "Ab_c"] = [("ab_c", "Ab_c")]
    ∧ fmtOperationName "AbC" = fmtOperationName "Ab_c"
    ∧ ("AbC" : String) ≠ "Ab_c" := by
  decide

set_option maxHeartbeats 2000000 in
/-- Claim C6 as amended: over the operation classes actually registered
together with the pre-registered control markers `fork`/`merge`/`skip`,
the CamelCase-to-snake_case normalization produces pairwise distinct
registry keys (it is injective on the registered set), so the missing
collision check never matters in practice. -/
theorem registry_normalization_injective :
    (["fork", "merge", "skip"] ++ operationClassNames.map fmtOperationName).Nodup := by
  decide

/-- Claim C7: calling `merge` on an already-merged fork (its `_joiner`
set by a first successful `merge`) raises the pipeline-state
`RuntimeError`, and `execute` on a never-merged fork fails with the
unmerged-pipeline `RuntimeError` before any splitting or operation runs —
for every delimiter (even one occurring in the input, or empty), every
node list and every input. -/
theorem merge_twice_and_unmerged_execute (j0 j1 d s : String) (cs : List Node) :
    mergeJoiner none j0 = .ok (some j0)
    ∧ mergeJoiner (some j0) j1 = .error "pipeline has already been merged"
    ∧ execNode (.par d none cs) s = .error PErr.notMerged := by
  refine ⟨rfl, rfl, ?_⟩
  simp [execNode]

/-- Claim C8: if the delimiter does not occur in the input, the merged
fork performs no split and its result is exactly the sequential
`Pipeline.execute` of the group's own node list on the whole input. -/
theorem degenerate_fork_sequential (cs : List Node) (d j s : String)
    (hin : pyIn d s = false) :
    execNode (.par d (some j) cs) s = pipeExec cs s := by
  simp [execNode, hin]

/-- Witness for C8: delimiter `,` absent from input `ab`. -/
theorem degenerate_fork_sequential_witness :
    pyIn "," "ab" = false
    ∧ execNode (.par "," (some "|") []) "ab" = pipeExec [] "ab" :=
  ⟨by decide, degenerate_fork_sequential [] "," "|" "ab" (by decide)⟩

/-- Claim C9: executing a pipeline with an empty operation list returns
the input unchanged and its logger emits the `pipeline is empty`
warning. -/
theorem empty_pipeline_identity_warning (s : String) :
    executeTop [] s = (.ok s, ["pipeline is empty"]) := by
  simp [executeTop, pipeExec]

/-- Claim C10: a merged fork whose delimiter is the empty string fails on
every input: the containment test succeeds for every string, so the split
branch is always taken and `str.split('')` raises its `ValueError` — no
input reaches the degenerate sequential case and no operation runs. -/
theorem empty_delimiter_always_errors (cs : List Node) (j s : String) :
    execNode (.par "" (some j) cs) s = .error PErr.emptySeparator := by
  have h : pyIn "" s = true := by
    rw [pyIn]
    cases hs : s.data with
    | nil => rfl
    | cons c rest => simp [pyInAux, List.isPrefixOf]
  simp [execNode, h]

end PSM
